import Mathlib

/-!
A shallow embedding of the `dir_sync` directory-synchronization tool
(`src/dir_sync/*.py`) together with theorems checking its natural-language
specification against the code.

Conventions used throughout:

* Bytes are modelled as natural numbers (`Byte := Nat`); byte strings as
  `List Byte`.
* External primitives that the repository imports but does not define --
  the `zlib` codec, `base64`, the JSON codec, and the `pyrsync2`
  block-checksum/delta engine -- are passed to each definition as function
  parameters; theorems assume only their documented round-trip contracts.
* Python's dynamically typed delta lists are modelled by the tagged type
  `PyVal`; functions that can raise exceptions are `Option`/`Except`-valued.
* File-system, signature-store and echo-guard state is modelled as
  functions from path strings to optional values; mutation is explicit
  state passing.
* Modification times are modelled as integers; only their ordering is
  used by the code.
-/

namespace DirSync

/-- Bytes are natural numbers in 0..255. -/
abbrev Byte := Nat

/-- Big-endian encoding of `n` into `w` bytes: `struct.pack` with format
`>Q` when `w = 8` (most significant byte first). -/
def beBytes : Nat → Nat → List Byte
  | 0, _ => []
  | w + 1, n => beBytes w (n / 256) ++ [n % 256]

/-- Big-endian decoding: `struct.unpack` with format `>Q`. -/
def beToNat (bs : List Byte) : Nat :=
  bs.foldl (fun acc b => acc * 256 + b) 0

/-- Little-endian encoding of `n` into `w` bytes: the native x86-64 layout
of the `struct` format character `L` (an 8-byte unsigned long) when
`w = 8`. -/
def leBytes : Nat → Nat → List Byte
  | 0, _ => []
  | w + 1, n => n % 256 :: leBytes w (n / 256)

/-- Little-endian decoding, inverse of `leBytes`. -/
def leToNat (bs : List Byte) : Nat :=
  bs.foldr (fun b acc => b + 256 * acc) 0

theorem beBytes_length (w n : Nat) : (beBytes w n).length = w := by
  induction w generalizing n with
  | zero => simp [beBytes]
  | succ w ih => simp [beBytes, ih]

theorem leBytes_length (w n : Nat) : (leBytes w n).length = w := by
  induction w generalizing n with
  | zero => simp [leBytes]
  | succ w ih => simp [leBytes, ih]

theorem beToNat_beBytes (w n : Nat) (h : n < 256 ^ w) :
    beToNat (beBytes w n) = n := by
  induction w generalizing n with
  | zero =>
    simp [beBytes, beToNat]
    omega
  | succ w ih =>
    have hdiv : n / 256 < 256 ^ w := by
      rw [pow_succ] at h
      omega
    have := ih (n / 256) hdiv
    simp only [beBytes, beToNat, List.foldl_append, List.foldl_cons, List.foldl_nil]
    simp only [beToNat] at this
    rw [this]
    omega

theorem leToNat_leBytes (w n : Nat) (h : n < 256 ^ w) :
    leToNat (leBytes w n) = n := by
  induction w generalizing n with
  | zero =>
    simp [leBytes, leToNat]
    omega
  | succ w ih =>
    have hdiv : n / 256 < 256 ^ w := by
      rw [pow_succ] at h
      omega
    have := ih (n / 256) hdiv
    simp only [leBytes, leToNat, List.foldr_cons]
    simp only [leToNat] at this
    rw [this]
    omega

/-- A Python value as it can appear in a delta list: an int, a bytes
object, a str, or any other object (all remaining types collapsed into
one constructor). -/
inductive PyVal where
  | int (n : Int)
  | bytes (b : List Byte)
  | str (s : List Byte)
  | other
deriving DecidableEq

/-- True exactly on `int` and `bytes` values (the element types accepted
by `FileSync.serialize_delta_data`). -/
def PyVal.isIntOrBytes : PyVal → Bool
  | PyVal.int _ => true
  | PyVal.bytes _ => true
  | _ => false

/-- True exactly on `int` and `str` values (the element types accepted by
`FileSync.deserialize_delta_data`). -/
def PyVal.isIntOrStr : PyVal → Bool
  | PyVal.int _ => true
  | PyVal.str _ => true
  | _ => false

/-- FileSync.serialize_delta_data: integers pass through, bytes are
base64-encoded into strings, any other element type raises ValueError. -/
def serialize_delta_data (b64encode : List Byte → List Byte) :
    List PyVal → Except String (List PyVal)
  | [] => Except.ok []
  | PyVal.int n :: rest =>
    (serialize_delta_data b64encode rest).map (fun l => PyVal.int n :: l)
  | PyVal.bytes b :: rest =>
    (serialize_delta_data b64encode rest).map (fun l => PyVal.str (b64encode b) :: l)
  | _ :: _ => Except.error "Unsupported type in delta_data"

/-- FileSync.deserialize_delta_data: integers pass through, strings are
base64-decoded into bytes, any other element type raises ValueError. -/
def deserialize_delta_data (b64decode : List Byte → List Byte) :
    List PyVal → Except String (List PyVal)
  | [] => Except.ok []
  | PyVal.int n :: rest =>
    (deserialize_delta_data b64decode rest).map (fun l => PyVal.int n :: l)
  | PyVal.str s :: rest =>
    (deserialize_delta_data b64decode rest).map (fun l => PyVal.bytes (b64decode s) :: l)
  | _ :: _ => Except.error "Unsupported type in delta_data"

/-- C2: for every delta whose elements are integers or byte chunks,
deserialize after serialize is the identity; a delta containing any other
element type makes serialize_delta_data raise, and a serialized list with
an element that is neither an integer nor a string makes
deserialize_delta_data raise. -/
theorem serialize_delta_data_roundtrip_and_errors
    (b64encode b64decode : List Byte → List Byte)
    (hb64 : ∀ b, b64decode (b64encode b) = b) (D : List PyVal) :
    ((∀ x ∈ D, x.isIntOrBytes = true) →
      (serialize_delta_data b64encode D).bind (deserialize_delta_data b64decode)
        = Except.ok D) ∧
    ((∃ x ∈ D, x.isIntOrBytes = false) →
      ∃ e, serialize_delta_data b64encode D = Except.error e) ∧
    (∀ S : List PyVal, (∃ x ∈ S, x.isIntOrStr = false) →
      ∃ e, deserialize_delta_data b64decode S = Except.error e) := by
  refine ⟨?_, ?_, ?_⟩
  · intro hD
    induction D with
    | nil => simp [serialize_delta_data, deserialize_delta_data, Except.bind]
    | cons x rest ih =>
      have hx : x.isIntOrBytes = true := hD x (List.mem_cons_self x rest)
      have hrest : ∀ y ∈ rest, y.isIntOrBytes = true :=
        fun y hy => hD y (List.mem_cons_of_mem x hy)
      have ihr := ih hrest
      cases x with
      | int n =>
        simp only [serialize_delta_data]
        cases hser : serialize_delta_data b64encode rest with
        | error e => simp [hser, Except.bind] at ihr
        | ok l =>
          simp only [hser, Except.map, Except.bind] at ihr ⊢
          simp only [deserialize_delta_data]
          cases hdes : deserialize_delta_data b64decode l with
          | error e => simp [hdes] at ihr
          | ok l2 =>
            simp only [hdes, Except.map] at ihr ⊢
            simp only [Except.ok.injEq] at ihr
            simp [ihr]
      | bytes b =>
        simp only [serialize_delta_data]
        cases hser : serialize_delta_data b64encode rest with
        | error e => simp [hser, Except.bind] at ihr
        | ok l =>
          simp only [hser, Except.map, Except.bind] at ihr ⊢
          simp only [deserialize_delta_data]
          cases hdes : deserialize_delta_data b64decode l with
          | error e => simp [hdes] at ihr
          | ok l2 =>
            simp only [hdes, Except.map] at ihr ⊢
            simp only [Except.ok.injEq] at ihr
            simp [ihr, hb64]
      | str s => simp [PyVal.isIntOrBytes] at hx
      | other => simp [PyVal.isIntOrBytes] at hx
  · intro hbad
    induction D with
    | nil => simp at hbad
    | cons x rest ih =>
      rcases hbad with ⟨y, hy, hyb⟩
      rcases List.mem_cons.mp hy with h | h
      · subst h
        cases y with
        | int n => simp [PyVal.isIntOrBytes] at hyb
        | bytes b => simp [PyVal.isIntOrBytes] at hyb
        | str s => exact ⟨_, rfl⟩
        | other => exact ⟨_, rfl⟩
      · cases x with
        | int n =>
          rcases ih ⟨y, h, hyb⟩ with ⟨e, he⟩
          exact ⟨e, by simp [serialize_delta_data, he, Except.map]⟩
        | bytes b =>
          rcases ih ⟨y, h, hyb⟩ with ⟨e, he⟩
          exact ⟨e, by simp [serialize_delta_data, he, Except.map]⟩
        | str s => exact ⟨_, rfl⟩
        | other => exact ⟨_, rfl⟩
  · intro S hbad
    induction S with
    | nil => simp at hbad
    | cons x rest ih =>
      rcases hbad with ⟨y, hy, hyb⟩
      rcases List.mem_cons.mp hy with h | h
      · subst h
        cases y with
        | int n => simp [PyVal.isIntOrStr] at hyb
        | str s => simp [PyVal.isIntOrStr] at hyb
        | bytes b => exact ⟨_, rfl⟩
        | other => exact ⟨_, rfl⟩
      · cases x with
        | int n =>
          rcases ih ⟨y, h, hyb⟩ with ⟨e, he⟩
          exact ⟨e, by simp [deserialize_delta_data, he, Except.map]⟩
        | str s =>
          rcases ih ⟨y, h, hyb⟩ with ⟨e, he⟩
          exact ⟨e, by simp [deserialize_delta_data, he, Except.map]⟩
        | bytes b => exact ⟨_, rfl⟩
        | other => exact ⟨_, rfl⟩

/-- Witness for C2 at a concrete delta. -/
theorem serialize_delta_data_roundtrip_and_errors_witness :
    (serialize_delta_data (fun b => b) [PyVal.int 2, PyVal.bytes [7, 8]]).bind
      (deserialize_delta_data (fun b => b))
      = Except.ok [PyVal.int 2, PyVal.bytes [7, 8]] :=
  (serialize_delta_data_roundtrip_and_errors (fun b => b) (fun b => b)
    (fun _ => rfl) [PyVal.int 2, PyVal.bytes [7, 8]]).1 (by decide)

/-- One record of `struct.pack` with format "L16s" (native x86-64 layout):
8 little-endian bytes of the weak checksum followed by the strong checksum
padded with zero bytes or truncated to 16 bytes; `struct.pack` raises when
the weak checksum does not fit an unsigned long. -/
def structPackL16s (weak : Nat) (strong : List Byte) : Option (List Byte) :=
  if weak < 2 ^ 64 then
    some (leBytes 8 weak ++ (strong.take 16 ++ List.replicate (16 - strong.length) 0))
  else none

/-- The flattening loop of FileSync.save_signature: concatenate the packed
records of all signature entries. -/
def packSignature : List (Nat × List Byte) → Option (List Byte)
  | [] => some []
  | e :: rest =>
    match structPackL16s e.1 e.2 with
    | none => none
    | some hd =>
      match packSignature rest with
      | none => none
      | some tl => some (hd ++ tl)

/-- FileSync.save_signature: pack the signature entries, compress, and
return the compressed bytes. The write of the signature file to disk is a
side effect that does not affect the returned value and is not modelled
here (the on-disk store is modelled as explicit state where the claims
need it). -/
def save_signature (compress : List Byte → List Byte)
    (signature : List (Nat × List Byte)) : Option (List Byte) :=
  match packSignature signature with
  | none => none
  | some flattened => some (compress flattened)

/-- Fuel-driven version of the unpacking loop of
FileSync.parse_signature; each iteration consumes 24 bytes, so any fuel
of at least the input length reproduces the source loop. -/
def unpackSigRecordsAux : Nat → List Byte → Option (List (Nat × List Byte))
  | 0, l => if l = [] then some [] else none
  | fuel + 1, l =>
    if l = [] then some []
    else if 24 ≤ l.length then
      match unpackSigRecordsAux fuel (l.drop 24) with
      | some rest => some ((leToNat (l.take 8), (l.take 24).drop 8) :: rest)
      | none => none
    else none

/-- The unpacking loop of FileSync.parse_signature: split the flattened
bytes into consecutive 24-byte records; `struct.unpack` raises when a
short final record remains. -/
def unpackSigRecords (l : List Byte) : Option (List (Nat × List Byte)) :=
  unpackSigRecordsAux l.length l

/-- FileSync.parse_signature: decompress the signature data and unpack the
binary records. -/
def parse_signature (decompress : List Byte → Option (List Byte))
    (signature_data : List Byte) : Option (List (Nat × List Byte)) :=
  match decompress signature_data with
  | none => none
  | some flattened => unpackSigRecords flattened

theorem unpackSigRecordsAux_packSignature
    (signature : List (Nat × List Byte))
    (hw : ∀ e ∈ signature, e.1 < 2 ^ 64)
    (hs : ∀ e ∈ signature, e.2.length = 16) :
    ∀ (flattened : List Byte), packSignature signature = some flattened →
      ∀ (fuel : Nat), flattened.length ≤ fuel →
        unpackSigRecordsAux fuel flattened = some signature := by
  induction signature with
  | nil =>
    intro flattened hp fuel _
    simp only [packSignature] at hp
    have hfl : flattened = [] := by simpa using hp.symm
    subst hfl
    cases fuel with
    | zero => simp [unpackSigRecordsAux]
    | succ f => simp [unpackSigRecordsAux]
  | cons e rest ih =>
    intro flattened hp fuel hfuel
    have hw1 : e.1 < 2 ^ 64 := hw e (List.mem_cons_self e rest)
    have hs1 : e.2.length = 16 := hs e (List.mem_cons_self e rest)
    simp only [packSignature, structPackL16s, if_pos hw1] at hp
    cases hrest : packSignature rest with
    | none => simp [hrest] at hp
    | some tl =>
      simp only [hrest] at hp
      have hflat : flattened = (leBytes 8 e.1 ++ (e.2.take 16 ++ List.replicate (16 - e.2.length) 0)) ++ tl := by
        simpa using hp.symm
      have htake : e.2.take 16 = e.2 := by
        rw [List.take_of_length_le (by omega)]
      have hrep : List.replicate (16 - e.2.length) (0 : Byte) = [] := by
        simp [hs1]
      rw [htake, hrep, List.append_nil] at hflat
      have hentry : (leBytes 8 e.1 ++ e.2).length = 24 := by
        simp [leBytes_length, hs1]
      subst hflat
      have hlentot : ((leBytes 8 e.1 ++ e.2) ++ tl).length = 24 + tl.length := by
        rw [List.length_append, hentry]
      have hne : (leBytes 8 e.1 ++ e.2) ++ tl ≠ [] := by
        intro hcontra
        have hlen0 := congrArg List.length hcontra
        simp only [List.length_append, leBytes_length, List.length_nil] at hlen0
        omega
      cases fuel with
      | zero =>
        rw [hlentot] at hfuel
        omega
      | succ f =>
        have hlen : 24 ≤ ((leBytes 8 e.1 ++ e.2) ++ tl).length := by
          rw [hlentot]
          omega
        have hfuel' : tl.length ≤ f := by
          rw [hlentot] at hfuel
          omega
        have hdrop : ((leBytes 8 e.1 ++ e.2) ++ tl).drop 24 = tl := by
          rw [List.drop_append_of_le_length (by omega)]
          rw [List.drop_of_length_le (by omega)]
          simp
        have htake24 : ((leBytes 8 e.1 ++ e.2) ++ tl).take 24 = leBytes 8 e.1 ++ e.2 := by
          rw [List.take_append_of_le_length (by omega)]
          rw [List.take_of_length_le (by omega)]
        have htake8 : ((leBytes 8 e.1 ++ e.2) ++ tl).take 8 = leBytes 8 e.1 := by
          rw [List.append_assoc, List.take_append_of_le_length (by simp [leBytes_length])]
          rw [List.take_of_length_le (by simp [leBytes_length])]
        have hrec := ih (fun x hx => hw x (List.mem_cons_of_mem e hx))
          (fun x hx => hs x (List.mem_cons_of_mem e hx)) tl hrest f hfuel'
        have hdrop8 : (leBytes 8 e.1 ++ e.2).drop 8 = e.2 := by
          rw [List.drop_append_of_le_length (by simp [leBytes_length])]
          rw [List.drop_of_length_le (by simp [leBytes_length])]
          simp
        simp only [unpackSigRecordsAux, if_neg hne, if_pos hlen, hdrop, hrec]
        rw [htake24, htake8, hdrop8, leToNat_leBytes 8 e.1 hw1]

theorem unpackSigRecords_packSignature
    (signature : List (Nat × List Byte))
    (hw : ∀ e ∈ signature, e.1 < 2 ^ 64)
    (hs : ∀ e ∈ signature, e.2.length = 16)
    (flattened : List Byte) (hp : packSignature signature = some flattened) :
    unpackSigRecords flattened = some signature :=
  unpackSigRecordsAux_packSignature signature hw hs flattened hp
    flattened.length (le_refl _)

/-- C3: for every signature whose weak checksums fit the packed integer
range and whose strong checksums are 16 bytes, parsing the compressed
bytes returned by save_signature reproduces the signature exactly.
The zlib codec is external; the theorem assumes its round-trip
contract. -/
theorem parse_save_signature_roundtrip
    (compress : List Byte → List Byte)
    (decompress : List Byte → Option (List Byte))
    (hzlib : ∀ b, decompress (compress b) = some b)
    (signature : List (Nat × List Byte))
    (hw : ∀ e ∈ signature, e.1 < 2 ^ 64)
    (hs : ∀ e ∈ signature, e.2.length = 16) :
    (save_signature compress signature).bind (parse_signature decompress)
      = some signature := by
  have hpack : ∃ flattened, packSignature signature = some flattened := by
    induction signature with
    | nil => exact ⟨[], rfl⟩
    | cons e rest ih =>
      rcases ih (fun x hx => hw x (List.mem_cons_of_mem e hx))
        (fun x hx => hs x (List.mem_cons_of_mem e hx)) with ⟨tl, htl⟩
      refine ⟨(leBytes 8 e.1 ++ (e.2.take 16 ++ List.replicate (16 - e.2.length) 0)) ++ tl, ?_⟩
      simp only [packSignature, structPackL16s, htl]
      rw [if_pos (hw e (List.mem_cons_self e rest))]
  rcases hpack with ⟨flattened, hp⟩
  simp only [save_signature, hp, Option.some_bind, parse_signature, hzlib]
  exact unpackSigRecords_packSignature signature hw hs flattened hp

/-- Witness for C3 at a concrete one-entry signature. -/
theorem parse_save_signature_roundtrip_witness :
    (save_signature (fun b => b)
        [(5, [1, 2, 3, 4, 5, 6, 7, 8, 9, 10, 11, 12, 13, 14, 15, 16])]).bind
      (parse_signature (fun b => some b))
      = some [(5, [1, 2, 3, 4, 5, 6, 7, 8, 9, 10, 11, 12, 13, 14, 15, 16])] :=
  parse_save_signature_roundtrip (fun b => b) (fun b => some b) (fun _ => rfl)
    [(5, [1, 2, 3, 4, 5, 6, 7, 8, 9, 10, 11, 12, 13, 14, 15, 16])]
    (by decide) (by decide)

/-- Pointwise update of a string-keyed table (dictionary assignment or
deletion, depending on `v`). -/
def upd {β : Type} (m : String → Option β) (k : String) (v : Option β) :
    String → Option β :=
  fun q => if q = k then v else m q

theorem upd_same {β : Type} (m : String → Option β) (k : String) (v : Option β) :
    upd m k v k = v := by
  simp [upd]

theorem upd_other {β : Type} (m : String → Option β) (k q : String) (v : Option β)
    (h : q ≠ k) : upd m k v q = m q := by
  simp [upd, h]

/-- ChangeHandler.should_ignore: directory events are always ignored;
otherwise the echo-guard table is consulted for the event's absolute
source path, the event is dropped when the recorded timestamp is within
500 ms (the entry is kept), and otherwise the entry is evicted and the
event proceeds. Returns the verdict and the updated table. Times are
nanoseconds as returned by time.time_ns. -/
def should_ignore (event_time : Nat) (is_directory : Bool) (src_path : String)
    (ignore_events : String → Option Nat) : Bool × (String → Option Nat) :=
  if is_directory then (true, ignore_events)
  else
    match ignore_events src_path with
    | some ignore_time =>
      if event_time < ignore_time + 500000000 then (true, ignore_events)
      else (false, upd ignore_events src_path none)
    | none => (false, ignore_events)

/-- C6: should_ignore drops the event and keeps the table entry whenever
the entry was recorded less than 500 ms before the event; evicts the
entry and lets the event proceed when the entry is 500 ms or older;
passes events with no entry through unchanged; and always ignores
directory events. -/
theorem should_ignore_spec (event_time : Nat) (src_path : String)
    (ignore_events : String → Option Nat) :
    (should_ignore event_time true src_path ignore_events = (true, ignore_events)) ∧
    (∀ t, ignore_events src_path = some t → event_time < t + 500000000 →
      should_ignore event_time false src_path ignore_events = (true, ignore_events)) ∧
    (∀ t, ignore_events src_path = some t → t + 500000000 ≤ event_time →
      (should_ignore event_time false src_path ignore_events).1 = false ∧
      (should_ignore event_time false src_path ignore_events).2 src_path = none ∧
      ∀ q, q ≠ src_path →
        (should_ignore event_time false src_path ignore_events).2 q = ignore_events q) ∧
    (ignore_events src_path = none →
      should_ignore event_time false src_path ignore_events = (false, ignore_events)) := by
  refine ⟨rfl, ?_, ?_, ?_⟩
  · intro t ht hlt
    simp [should_ignore, ht, hlt]
  · intro t ht hge
    have hnot : ¬ event_time < t + 500000000 := by omega
    refine ⟨?_, ?_, ?_⟩
    · simp [should_ignore, ht, hnot]
    · simp [should_ignore, ht, hnot, upd_same]
    · intro q hq
      simp [should_ignore, ht, hnot, upd_other _ _ _ _ hq]
  · intro ht
    simp [should_ignore, ht]

/-- Witness for C6: a fresh entry suppresses the event and an old entry is
evicted. -/
theorem should_ignore_spec_witness :
    should_ignore 400000000 false "f"
        (fun q => if q = "f" then some 0 else none) = (true, fun q => if q = "f" then some 0 else none) ∧
    (should_ignore 600000000 false "f"
        (fun q => if q = "f" then some 0 else none)).1 = false :=
  ⟨(should_ignore_spec 400000000 "f" (fun q => if q = "f" then some 0 else none)).2.1
      0 (by simp) (by omega),
   ((should_ignore_spec 600000000 "f" (fun q => if q = "f" then some 0 else none)).2.2.1
      0 (by simp) (by omega)).1⟩

/-- Failure injection point for FileSync.apply_delta: either nothing
fails beyond what `patch` itself reports, or os.replace fails. -/
inductive FailPoint where
  | noFail
  | replaceFail
deriving DecidableEq

/-- FileSync.apply_delta over an explicit file system `fs` (a map from
path to file content). `patch` is the external pyrsync2.patchstream,
returning none when patching raises; `fp` injects a failure of
os.replace. The steps mirror the source: create the temporary file, patch
the base into it, atomically replace the base, and in a finally block
remove the temporary file when it still exists. Returns a success flag
and the resulting file system. -/
def apply_delta (patch : List Byte → List PyVal → Option (List Byte))
    (fp : FailPoint) (fs : String → Option (List Byte))
    (base_file_path temp_file_path : String) (delta_data : List PyVal) :
    Bool × (String → Option (List Byte)) :=
  let fs1 := upd fs temp_file_path (some [])
  match fs1 base_file_path with
  | none => (false, upd fs1 temp_file_path none)
  | some base =>
    match patch base delta_data with
    | none => (false, upd fs1 temp_file_path none)
    | some out =>
      let fs2 := upd fs1 temp_file_path (some out)
      match fp with
      | FailPoint.replaceFail => (false, upd fs2 temp_file_path none)
      | FailPoint.noFail =>
        (true, upd (upd fs2 base_file_path (some out)) temp_file_path none)

/-- C5: whenever apply_delta fails (missing base, patching failure, or
replacement failure) the base file's content is unchanged and the
temporary file does not remain; on success the base file holds the
reconstructed content. -/
theorem apply_delta_atomicity (patch : List Byte → List PyVal → Option (List Byte))
    (fp : FailPoint) (fs : String → Option (List Byte))
    (base_file_path temp_file_path : String) (delta_data : List PyVal)
    (hne : base_file_path ≠ temp_file_path) :
    ((apply_delta patch fp fs base_file_path temp_file_path delta_data).1 = false →
      (apply_delta patch fp fs base_file_path temp_file_path delta_data).2 base_file_path
        = fs base_file_path) ∧
    ((apply_delta patch fp fs base_file_path temp_file_path delta_data).1 = true →
      ∃ base out, fs base_file_path = some base ∧ patch base delta_data = some out ∧
        (apply_delta patch fp fs base_file_path temp_file_path delta_data).2 base_file_path
          = some out) ∧
    (apply_delta patch fp fs base_file_path temp_file_path delta_data).2 temp_file_path
      = none := by
  have hbase1 : upd fs temp_file_path (some []) base_file_path = fs base_file_path :=
    upd_other fs temp_file_path base_file_path (some []) hne
  cases hb : upd fs temp_file_path (some []) base_file_path with
  | none =>
    simp only [apply_delta, hb]
    refine ⟨?_, ?_, upd_same _ _ _⟩
    · intro _
      rw [upd_other _ _ _ _ hne]
      exact hbase1
    · intro hok
      simp at hok
  | some base =>
    cases hp : patch base delta_data with
    | none =>
      simp only [apply_delta, hb, hp]
      refine ⟨?_, ?_, upd_same _ _ _⟩
      · intro _
        rw [upd_other _ _ _ _ hne]
        exact hbase1
      · intro hok
        simp at hok
    | some out =>
      cases fp with
      | replaceFail =>
        simp only [apply_delta, hb, hp]
        refine ⟨?_, ?_, upd_same _ _ _⟩
        · intro _
          rw [upd_other _ _ _ _ hne, upd_other _ _ _ _ hne]
          exact hbase1
        · intro hok
          simp at hok
      | noFail =>
        simp only [apply_delta, hb, hp]
        refine ⟨?_, ?_, upd_same _ _ _⟩
        · intro hcontra
          simp at hcontra
        · intro _
          refine ⟨base, out, hbase1.symm.trans hb, hp, ?_⟩
          rw [upd_other _ _ _ _ hne, upd_same]

/-- Witness for C5: a successful application rewrites the base and clears
the temporary file; a patching failure leaves the base intact. -/
theorem apply_delta_atomicity_witness :
    ((apply_delta (fun _ _ => some [9]) FailPoint.noFail
        (fun q => if q = "base" then some [1] else none) "base" "tmp" []).2 "base"
      = some [9]) ∧
    ((apply_delta (fun _ _ => some [9]) FailPoint.noFail
        (fun q => if q = "base" then some [1] else none) "base" "tmp" []).2 "tmp"
      = none) := by
  have h := apply_delta_atomicity (fun _ _ => some [9]) FailPoint.noFail
    (fun q => if q = "base" then some [1] else none) "base" "tmp" [] (by decide)
  refine ⟨?_, h.2.2⟩
  rcases h.2.1 (by decide) with ⟨base, out, hb, hp, hres⟩
  rw [hres, ← hp]

/-- The registry-visible actions of the system, as performed by
NodeManager and the per-node listener threads. `addNode` is
NodeManager.add_node_unsafe (a fresh Node starts with
is_synchronized = False); `handleDirState` is
Node.handle_directory_state, the only place that sets
is_synchronized = True; `otherMessage` is any other message handler
(none of them touch the flag); `removeNode` is NodeManager.remove_node;
`broadcastUpdate` is NodeManager.broadcast_update. -/
inductive RegAction where
  | addNode (i : Nat)
  | handleDirState (i : Nat)
  | otherMessage (i : Nat)
  | removeNode (i : Nat)
  | broadcastUpdate
deriving DecidableEq

/-- One step of the registry: the new registry (a list of node id and
is_synchronized flag pairs) together with the ids that are sent a
MODIFICATION_UPDATE during the step. broadcast_update sends to exactly
the nodes whose is_synchronized flag is true. -/
def regStep : List (Nat × Bool) → RegAction → List (Nat × Bool) × List Nat
  | reg, RegAction.addNode i =>
    (if (reg.lookup i).isSome then reg else (i, false) :: reg, [])
  | reg, RegAction.handleDirState i =>
    (reg.map (fun e => if e.1 = i then (e.1, true) else e), [])
  | reg, RegAction.otherMessage _ => (reg, [])
  | reg, RegAction.removeNode i => (reg.filter (fun e => e.1 != i), [])
  | reg, RegAction.broadcastUpdate =>
    (reg, (reg.filter (fun e => e.2)).map (fun e => e.1))

/-- Execute a list of registry actions from a starting registry. -/
def regExec : List (Nat × Bool) → List RegAction → List (Nat × Bool)
  | reg, [] => reg
  | reg, a :: rest => regExec (regStep reg a).1 rest

theorem regExec_synchronized_mem (pre : List RegAction) :
    ∀ (reg : List (Nat × Bool)) (i : Nat), (i, true) ∈ regExec reg pre →
      (i, true) ∈ reg ∨ RegAction.handleDirState i ∈ pre := by
  induction pre with
  | nil =>
    intro reg i h
    exact Or.inl h
  | cons a rest ih =>
    intro reg i h
    simp only [regExec] at h
    rcases ih (regStep reg a).1 i h with hmem | hrest
    · cases a with
      | addNode j =>
        simp only [regStep] at hmem
        by_cases hj : (reg.lookup j).isSome
        · rw [if_pos hj] at hmem
          exact Or.inl hmem
        · rw [if_neg hj] at hmem
          rcases List.mem_cons.mp hmem with hc | hc
          · exact absurd (congrArg Prod.snd hc) (by simp)
          · exact Or.inl hc
      | handleDirState j =>
        simp only [regStep] at hmem
        rcases List.mem_map.mp hmem with ⟨e, he, heq⟩
        by_cases hej : e.1 = j
        · rw [if_pos hej] at heq
          have : i = j := by
            have := congrArg Prod.fst heq
            simp at this
            omega
          subst this
          exact Or.inr (List.mem_cons_self _ _)
        · rw [if_neg hej] at heq
          exact Or.inl (heq ▸ he)
      | otherMessage j =>
        exact Or.inl hmem
      | removeNode j =>
        simp only [regStep] at hmem
        exact Or.inl (List.mem_of_mem_filter hmem)
      | broadcastUpdate =>
        exact Or.inl hmem
    · exact Or.inr (List.mem_cons_of_mem a hrest)

/-- C7: a broadcast_update step sends a MODIFICATION_UPDATE to exactly
the registered nodes whose is_synchronized flag is true, and in any run
starting from an empty registry a node can only receive a
MODIFICATION_UPDATE after a handle_directory_state step for it occurred
earlier in the run (the flag starts false at registration and is set
only there). -/
theorem broadcast_update_only_synchronized (pre : List RegAction) (i : Nat) :
    (i ∈ (regStep (regExec [] pre) RegAction.broadcastUpdate).2 ↔
      (i, true) ∈ regExec [] pre) ∧
    (i ∈ (regStep (regExec [] pre) RegAction.broadcastUpdate).2 →
      RegAction.handleDirState i ∈ pre) := by
  have hiff : i ∈ (regStep (regExec [] pre) RegAction.broadcastUpdate).2 ↔
      (i, true) ∈ regExec [] pre := by
    simp only [regStep, List.mem_map, List.mem_filter]
    constructor
    · rintro ⟨e, ⟨hmem, hflag⟩, heq⟩
      have : e = (i, true) := by
        rcases e with ⟨a, b⟩
        simp at hflag heq
        simp [heq, hflag]
      exact this ▸ hmem
    · intro hmem
      exact ⟨(i, true), ⟨hmem, rfl⟩, rfl⟩
  refine ⟨hiff, ?_⟩
  intro hrec
  rcases regExec_synchronized_mem pre [] i (hiff.mp hrec) with hmem | hpre
  · simp at hmem
  · exact hpre

/-- Witness for C7: after registering node 3 and completing its
directory-state handshake, a broadcast reaches node 3 and the handshake
action indeed occurred earlier in the run. -/
theorem broadcast_update_only_synchronized_witness :
    3 ∈ (regStep (regExec [] [RegAction.addNode 3, RegAction.handleDirState 3])
          RegAction.broadcastUpdate).2 ∧
    RegAction.handleDirState 3 ∈ [RegAction.addNode 3, RegAction.handleDirState 3] :=
  ⟨by decide,
   (broadcast_update_only_synchronized
      [RegAction.addNode 3, RegAction.handleDirState 3] 3).2 (by decide)⟩

/-- Node.send_message: serialize the message to JSON (`encode`), compress
it (`compress`), and prepend the compressed length as a uint64 big-endian
length field; these are exactly the bytes written to the socket.
struct.pack raises when the length does not fit a uint64. -/
def send_message_bytes {α : Type} (encode : α → List Byte)
    (compress : List Byte → List Byte) (m : α) : Option (List Byte) :=
  let compressed_message := compress (encode m)
  if compressed_message.length < 2 ^ 64 then
    some (beBytes 8 compressed_message.length ++ compressed_message)
  else none

/-- Frames produced by sending each message of a list in order. -/
def sendAllFrames {α : Type} (encode : α → List Byte)
    (compress : List Byte → List Byte) : List α → Option (List (List Byte))
  | [] => some []
  | m :: rest =>
    match send_message_bytes encode compress m with
    | none => none
    | some f =>
      match sendAllFrames encode compress rest with
      | none => none
      | some fs => some (f :: fs)

/-- The two buffer-fill loops of Node.receive_message: repeatedly recv
from the socket (modelled as the list of byte chunks the socket will
deliver) until the buffer holds at least n bytes; an exhausted socket or
an empty recv result raises ConnectionError (none). Returns the grown
buffer and the remaining chunks. -/
def fillBuffer (n : Nat) : List (List Byte) → List Byte →
    Option (List Byte × List (List Byte))
  | [], buf => if n ≤ buf.length then some (buf, []) else none
  | c :: rest, buf =>
    if n ≤ buf.length then some (buf, c :: rest)
    else if c.isEmpty then none
    else fillBuffer n rest (buf ++ c)

/-- Node.receive_message: fill the buffer to 8 bytes, decode the
big-endian length, fill the buffer to that many body bytes, decompress
and JSON-parse the body, and keep the leftover buffer bytes and the
undelivered chunks for the next call. Any failure returns none. -/
def receive_message {α : Type} (decompress : List Byte → Option (List Byte))
    (decode : List Byte → Option α) (buf : List Byte)
    (chunks : List (List Byte)) : Option (α × List Byte × List (List Byte)) :=
  match fillBuffer 8 chunks buf with
  | none => none
  | some (b1, ch1) =>
    let message_length := beToNat (b1.take 8)
    match fillBuffer message_length ch1 (b1.drop 8) with
    | none => none
    | some (b2, ch2) =>
      match decompress (b2.take message_length) with
      | none => none
      | some dm =>
        match decode dm with
        | none => none
        | some m => some (m, b2.drop message_length, ch2)

/-- Iterated receive_message: read k messages in sequence, threading the
internal buffer and the socket chunks through the calls. -/
def receiveMany {α : Type} (decompress : List Byte → Option (List Byte))
    (decode : List Byte → Option α) :
    Nat → List Byte → List (List Byte) →
    Option (List α × List Byte × List (List Byte))
  | 0, buf, chunks => some ([], buf, chunks)
  | k + 1, buf, chunks =>
    match receive_message decompress decode buf chunks with
    | none => none
    | some (m, b, ch) =>
      match receiveMany decompress decode k b ch with
      | none => none
      | some (ms, b2, ch2) => some (m :: ms, b2, ch2)

theorem fillBuffer_spec (n : Nat) :
    ∀ (chunks : List (List Byte)) (buf : List Byte),
      (∀ c ∈ chunks, c ≠ []) → n ≤ buf.length + chunks.flatten.length →
      ∃ buf' chunks', fillBuffer n chunks buf = some (buf', chunks') ∧
        buf' ++ chunks'.flatten = buf ++ chunks.flatten ∧
        n ≤ buf'.length ∧ ∀ c ∈ chunks', c ≠ [] := by
  intro chunks
  induction chunks with
  | nil =>
    intro buf _ hlen
    simp only [List.flatten_nil, List.length_nil, Nat.add_zero] at hlen
    exact ⟨buf, [], by simp [fillBuffer, hlen], by simp, hlen, by simp⟩
  | cons c rest ih =>
    intro buf hne hlen
    by_cases hb : n ≤ buf.length
    · exact ⟨buf, c :: rest, by simp [fillBuffer, hb], rfl, hb, hne⟩
    · have hcne : c ≠ [] := hne c (List.mem_cons_self c rest)
      have hce : c.isEmpty = false := by
        cases c with
        | nil => exact absurd rfl hcne
        | cons x xs => rfl
      have hlen' : n ≤ (buf ++ c).length + rest.flatten.length := by
        simp only [List.flatten_cons, List.length_append] at hlen ⊢
        omega
      rcases ih (buf ++ c) (fun x hx => hne x (List.mem_cons_of_mem c hx)) hlen'
        with ⟨buf', chunks', heq, hflat, hge, hne'⟩
      refine ⟨buf', chunks', ?_, ?_, hge, hne'⟩
      · simp [fillBuffer, hb, hce, heq]
      · rw [hflat]
        simp [List.flatten_cons, List.append_assoc]

theorem receive_message_frame {α : Type}
    (decompress : List Byte → Option (List Byte)) (decode : List Byte → Option α)
    (c rest buf : List Byte) (chunks : List (List Byte))
    (hne : ∀ x ∈ chunks, x ≠ []) (hlen : c.length < 2 ^ 64)
    (heq : buf ++ chunks.flatten = (beBytes 8 c.length ++ c) ++ rest) :
    ∃ buf' chunks', buf' ++ chunks'.flatten = rest ∧ (∀ x ∈ chunks', x ≠ []) ∧
      receive_message decompress decode buf chunks =
        (match decompress c with
        | none => none
        | some dm =>
          match decode dm with
          | none => none
          | some m => some (m, buf', chunks')) := by
  have htotal : buf.length + chunks.flatten.length = 8 + c.length + rest.length := by
    have := congrArg List.length heq
    simp only [List.length_append, beBytes_length] at this
    omega
  rcases fillBuffer_spec 8 chunks buf hne (by omega) with
    ⟨b1, ch1, hfill1, hflat1, hge1, hne1⟩
  have hflat1' : b1 ++ ch1.flatten = (beBytes 8 c.length ++ c) ++ rest :=
    hflat1.trans heq
  have htake8 : b1.take 8 = beBytes 8 c.length := by
    have h1 : (b1 ++ ch1.flatten).take 8 = b1.take 8 :=
      List.take_append_of_le_length hge1
    rw [hflat1', List.append_assoc] at h1
    rw [← h1, List.take_append_of_le_length (by simp [beBytes_length]),
      List.take_of_length_le (by simp [beBytes_length])]
  have hlenval : beToNat (b1.take 8) = c.length := by
    rw [htake8, beToNat_beBytes 8 c.length hlen]
  have hdrop8 : b1.drop 8 ++ ch1.flatten = c ++ rest := by
    have h1 : (b1 ++ ch1.flatten).drop 8 = b1.drop 8 ++ ch1.flatten :=
      List.drop_append_of_le_length hge1
    rw [hflat1', List.append_assoc] at h1
    rw [← h1, List.drop_append_of_le_length (by simp [beBytes_length]),
      List.drop_of_length_le (by simp [beBytes_length])]
    simp
  have hlen2 : c.length ≤ (b1.drop 8).length + ch1.flatten.length := by
    have := congrArg List.length hdrop8
    simp only [List.length_append] at this
    omega
  rcases fillBuffer_spec c.length ch1 (b1.drop 8) hne1 hlen2 with
    ⟨b2, ch2, hfill2, hflat2, hge2, hne2⟩
  have hflat2' : b2 ++ ch2.flatten = c ++ rest := hflat2.trans hdrop8
  have htakec : b2.take c.length = c := by
    have h1 : (b2 ++ ch2.flatten).take c.length = b2.take c.length :=
      List.take_append_of_le_length hge2
    rw [hflat2'] at h1
    rw [← h1, List.take_append_of_le_length (le_refl c.length),
      List.take_of_length_le (le_refl c.length)]
  have hdropc : b2.drop c.length ++ ch2.flatten = rest := by
    have h1 : (b2 ++ ch2.flatten).drop c.length = b2.drop c.length ++ ch2.flatten :=
      List.drop_append_of_le_length hge2
    rw [hflat2'] at h1
    rw [← h1, List.drop_append_of_le_length (le_refl c.length),
      List.drop_of_length_le (le_refl c.length)]
    simp
  refine ⟨b2.drop c.length, ch2, hdropc, hne2, ?_⟩
  simp only [receive_message, hfill1, hlenval, hfill2, htakec]

/-- C4: frames produced by send_message (uint64 big-endian length field
followed by the compressed UTF-8 JSON body), delivered to receive_message
in an arbitrary chunking of the concatenated byte stream, are read back
as exactly the sent messages in order, with the internal buffer carrying
leftover bytes across calls; the zlib and JSON codecs are external and
assumed to satisfy their round-trip contracts. -/
theorem framed_channel_roundtrip {α : Type}
    (encode : α → List Byte) (decode : List Byte → Option α)
    (compress : List Byte → List Byte) (decompress : List Byte → Option (List Byte))
    (hzlib : ∀ b, decompress (compress b) = some b)
    (hjson : ∀ m : α, decode (encode m) = some m)
    (ms : List α) (frames : List (List Byte))
    (hsend : sendAllFrames encode compress ms = some frames)
    (buf : List Byte) (chunks : List (List Byte))
    (hne : ∀ c ∈ chunks, c ≠ [])
    (hstream : buf ++ chunks.flatten = frames.flatten) :
    receiveMany decompress decode ms.length buf chunks = some (ms, [], []) := by
  induction ms generalizing frames buf chunks with
  | nil =>
    have hframes : frames = [] := by
      simp only [sendAllFrames] at hsend
      simpa using hsend.symm
    subst hframes
    simp only [List.flatten_nil] at hstream
    rcases List.append_eq_nil.mp hstream with ⟨hbuf, hflat⟩
    have hchunks : chunks = [] := by
      cases chunks with
      | nil => rfl
      | cons x xs =>
        rw [List.flatten_cons] at hflat
        rcases List.append_eq_nil.mp hflat with ⟨hx, _⟩
        exact absurd hx (hne x (List.mem_cons_self x xs))
    subst hbuf hchunks
    rfl
  | cons m ms ih =>
    simp only [sendAllFrames] at hsend
    cases hsm : send_message_bytes encode compress m with
    | none => rw [hsm] at hsend; exact absurd hsend (by simp)
    | some f =>
      rw [hsm] at hsend
      cases hsall : sendAllFrames encode compress ms with
      | none => rw [hsall] at hsend; exact absurd hsend (by simp)
      | some fs =>
        rw [hsall] at hsend
        have hframes : frames = f :: fs := by
          simpa using hsend.symm
        subst hframes
        have hflen : (compress (encode m)).length < 2 ^ 64 ∧
            f = beBytes 8 (compress (encode m)).length ++ compress (encode m) := by
          by_cases hc : (compress (encode m)).length < 2 ^ 64
          · refine ⟨hc, ?_⟩
            simp only [send_message_bytes, if_pos hc] at hsm
            exact ((Option.some.injEq _ _).mp hsm).symm
          · simp only [send_message_bytes, if_neg hc] at hsm
            exact absurd hsm (by simp)
        have hstream' : buf ++ chunks.flatten =
            (beBytes 8 (compress (encode m)).length ++ compress (encode m)) ++ fs.flatten := by
          rw [hstream, List.flatten_cons, hflen.2]
        rcases receive_message_frame decompress decode (compress (encode m))
          fs.flatten buf chunks hne hflen.1 hstream' with
          ⟨buf', chunks', hrest, hne', hrecv⟩
        simp only [hzlib, hjson] at hrecv
        simp only [List.length_cons, receiveMany, hrecv,
          ih fs hsall buf' chunks' hne' hrest]

/-- Witness for C4: two messages framed and delivered in chunks that
split the length field and straddle the frame boundary are received back
in order. -/
theorem framed_channel_roundtrip_witness :
    receiveMany (fun b => some b)
      (fun l => match l with | [x] => some x | _ => none) 2 []
      [[0, 0, 0], [0, 0, 0, 0, 1], [3, 0, 0], [0, 0, 0, 0, 0, 1, 5]]
      = some ([3, 5], [], []) :=
  framed_channel_roundtrip (fun n => [n])
    (fun l => match l with | [x] => some x | _ => none)
    (fun b => b) (fun b => some b) (fun _ => rfl) (fun _ => rfl)
    [3, 5] [[0, 0, 0, 0, 0, 0, 0, 1, 3], [0, 0, 0, 0, 0, 0, 0, 1, 5]]
    (by decide) []
    [[0, 0, 0], [0, 0, 0, 0, 1], [3, 0, 0], [0, 0, 0, 0, 0, 1, 5]]
    (by decide) (by decide)

/-- A tagged delta element as produced by the external
pyrsync2.rsyncdelta: an integer block index to reuse from the receiver's
base file, or a literal byte chunk. -/
inductive DeltaItem where
  | blockRef (n : Int)
  | literal (b : List Byte)
deriving DecidableEq

/-- The dynamically typed Python value carried by a delta element. -/
def DeltaItem.toPyVal : DeltaItem → PyVal
  | DeltaItem.blockRef n => PyVal.int n
  | DeltaItem.literal b => PyVal.bytes b

/-- The wire form of a delta element after serialize_delta_data. -/
def serializeItem (b64encode : List Byte → List Byte) : DeltaItem → PyVal
  | DeltaItem.blockRef n => PyVal.int n
  | DeltaItem.literal b => PyVal.str (b64encode b)

theorem serialize_delta_data_items (b64encode : List Byte → List Byte)
    (l : List DeltaItem) :
    serialize_delta_data b64encode (l.map DeltaItem.toPyVal)
      = Except.ok (l.map (serializeItem b64encode)) := by
  induction l with
  | nil => rfl
  | cons x rest ih =>
    cases x with
    | blockRef n =>
      simp [DeltaItem.toPyVal, serialize_delta_data, ih, serializeItem, Except.map]
    | literal b =>
      simp [DeltaItem.toPyVal, serialize_delta_data, ih, serializeItem, Except.map]

/-- A local file under the monitored directory: content and mtime. The
local manifest entry built for it by
get_local_directory_state_with_signatures carries the same mtime that
prepare_file_for_transfer later reads with os.stat. -/
structure LocalFile where
  content : List Byte
  mtime : Int
deriving DecidableEq

/-- A remote manifest entry as received in a DIRECTORY_STATE payload:
mtime, size, and the base64 bytes of the compressed signature. -/
structure RemoteFile where
  mtime : Int
  size : Nat
  signature : List Byte
deriving DecidableEq

/-- One entry of a DELTA_TRANSFER payload: the dict built by
Node.prepare_file_for_transfer. -/
structure FileInfo where
  delta : List PyVal
  mtime : Int
  action : String
  is_full_file : Bool
deriving DecidableEq

/-- Node.prepare_file_for_transfer: the signature test is Python
truthiness, so only a present and non-empty remote signature takes the
delta branch (is_full_file false); a missing signature, or one that
parsed to the empty list (the signature of an empty remote file), takes
the full-file branch: the file bytes as a single-item delta with
is_full_file true. The delta is serialized into the payload entry. -/
def prepare_file_for_transfer (b64encode : List Byte → List Byte)
    (rsyncdelta : List (Nat × List Byte) → List Byte → List DeltaItem)
    (lf : LocalFile) (signature : Option (List (Nat × List Byte))) : FileInfo :=
  let d : List DeltaItem × Bool :=
    match signature with
    | some s =>
      if s = [] then ([DeltaItem.literal lf.content], true)
      else (rsyncdelta s lf.content, false)
    | none => ([DeltaItem.literal lf.content], true)
  { delta := ((serialize_delta_data b64encode (d.1.map DeltaItem.toPyVal)).toOption).getD [],
    mtime := lf.mtime,
    action := "CREATE",
    is_full_file := d.2 }

/-- Verdict of one iteration of the reconciliation loop in
Node.handle_directory_state: queue an entry for the path, skip it, or
raise (fail) because the remote's signature bytes do not parse. -/
inductive PathAction where
  | skip
  | queue (fi : FileInfo)
  | fail
deriving DecidableEq

/-- The body of the reconciliation loop of Node.handle_directory_state
for one path of the key union: present on both sides with the local file
newer queues a delta against the remote's supplied signature; not newer
skips; present locally only queues the full file; present remotely only
skips (the peer will send it). -/
def reconcilePath (b64encode b64decode : List Byte → List Byte)
    (decompress : List Byte → Option (List Byte))
    (rsyncdelta : List (Nat × List Byte) → List Byte → List DeltaItem)
    (localFs : List (String × LocalFile)) (remote : List (String × RemoteFile))
    (p : String) : PathAction :=
  match localFs.lookup p, remote.lookup p with
  | some lf, some rf =>
    if rf.mtime < lf.mtime then
      match parse_signature decompress (b64decode rf.signature) with
      | some s =>
        PathAction.queue (prepare_file_for_transfer b64encode rsyncdelta lf (some s))
      | none => PathAction.fail
    else PathAction.skip
  | some lf, none =>
    PathAction.queue (prepare_file_for_transfer b64encode rsyncdelta lf none)
  | none, _ => PathAction.skip

/-- The files_to_send accumulation of Node.handle_directory_state over a
list of paths; none models the handler raising. -/
def buildFilesToSend (b64encode b64decode : List Byte → List Byte)
    (decompress : List Byte → Option (List Byte))
    (rsyncdelta : List (Nat × List Byte) → List Byte → List DeltaItem)
    (localFs : List (String × LocalFile)) (remote : List (String × RemoteFile)) :
    List String → Option (List (String × FileInfo))
  | [] => some []
  | p :: rest =>
    match reconcilePath b64encode b64decode decompress rsyncdelta localFs remote p with
    | PathAction.fail => none
    | PathAction.skip =>
      buildFilesToSend b64encode b64decode decompress rsyncdelta localFs remote rest
    | PathAction.queue fi =>
      match buildFilesToSend b64encode b64decode decompress rsyncdelta localFs remote rest with
      | none => none
      | some tl => some ((p, fi) :: tl)

/-- Node.handle_directory_state over the local directory contents and the
received remote manifest: build the files_to_send mapping over the union
of the two key sets, send a DELTA_TRANSFER exactly when the mapping is
nonempty, and set is_synchronized to true. Returns the mapping, the
sent flag and the is_synchronized flag; none models the handler raising
on a malformed remote signature. -/
def handle_directory_state (b64encode b64decode : List Byte → List Byte)
    (decompress : List Byte → Option (List Byte))
    (rsyncdelta : List (Nat × List Byte) → List Byte → List DeltaItem)
    (localFs : List (String × LocalFile)) (remote : List (String × RemoteFile)) :
    Option (List (String × FileInfo) × Bool × Bool) :=
  match buildFilesToSend b64encode b64decode decompress rsyncdelta localFs remote
      ((localFs.map Prod.fst ++ remote.map Prod.fst).dedup) with
  | none => none
  | some files_to_send => some (files_to_send, !files_to_send.isEmpty, true)

theorem lookup_some_mem_keys {β : Type} (l : List (String × β)) (p : String) (v : β)
    (h : l.lookup p = some v) : p ∈ l.map Prod.fst := by
  induction l with
  | nil => simp [List.lookup] at h
  | cons e rest ih =>
    rcases e with ⟨k, b⟩
    rw [List.lookup_cons] at h
    by_cases hpk : p = k
    · simp [hpk]
    · rw [beq_false_of_ne hpk] at h
      simp only [List.map_cons, List.mem_cons]
      exact Or.inr (ih h)

theorem buildFilesToSend_no_fail (b64encode b64decode : List Byte → List Byte)
    (decompress : List Byte → Option (List Byte))
    (rsyncdelta : List (Nat × List Byte) → List Byte → List DeltaItem)
    (localFs : List (String × LocalFile)) (remote : List (String × RemoteFile)) :
    ∀ (paths : List String) (fts : List (String × FileInfo)),
      buildFilesToSend b64encode b64decode decompress rsyncdelta localFs remote paths
        = some fts →
      ∀ p ∈ paths,
        reconcilePath b64encode b64decode decompress rsyncdelta localFs remote p
          ≠ PathAction.fail := by
  intro paths
  induction paths with
  | nil => intro fts _ p hp; simp at hp
  | cons q rest ih =>
    intro fts h p hp
    simp only [buildFilesToSend] at h
    cases hra : reconcilePath b64encode b64decode decompress rsyncdelta localFs remote q with
    | fail => rw [hra] at h; exact absurd h (by simp)
    | skip =>
      rw [hra] at h
      rcases List.mem_cons.mp hp with hpq | hpr
      · subst hpq; rw [hra]; simp
      · exact ih fts h p hpr
    | queue fi =>
      rw [hra] at h
      cases hrest : buildFilesToSend b64encode b64decode decompress rsyncdelta
          localFs remote rest with
      | none => rw [hrest] at h; exact absurd h (by simp)
      | some tl =>
        rcases List.mem_cons.mp hp with hpq | hpr
        · subst hpq; rw [hra]; simp
        · exact ih tl hrest p hpr

theorem buildFilesToSend_lookup (b64encode b64decode : List Byte → List Byte)
    (decompress : List Byte → Option (List Byte))
    (rsyncdelta : List (Nat × List Byte) → List Byte → List DeltaItem)
    (localFs : List (String × LocalFile)) (remote : List (String × RemoteFile)) :
    ∀ (paths : List String), paths.Nodup →
      ∀ (fts : List (String × FileInfo)),
        buildFilesToSend b64encode b64decode decompress rsyncdelta localFs remote paths
          = some fts →
        ∀ p, fts.lookup p =
          if p ∈ paths then
            match reconcilePath b64encode b64decode decompress rsyncdelta localFs remote p with
            | PathAction.queue fi => some fi
            | _ => none
          else none := by
  intro paths
  induction paths with
  | nil =>
    intro _ fts h p
    simp only [buildFilesToSend] at h
    have : fts = [] := by simpa using h.symm
    subst this
    simp [List.lookup]
  | cons q rest ih =>
    intro hnd fts h p
    have hq : q ∉ rest := (List.nodup_cons.mp hnd).1
    have hnd' : rest.Nodup := (List.nodup_cons.mp hnd).2
    simp only [buildFilesToSend] at h
    cases hra : reconcilePath b64encode b64decode decompress rsyncdelta localFs remote q with
    | fail => rw [hra] at h; exact absurd h (by simp)
    | skip =>
      rw [hra] at h
      rw [ih hnd' fts h p]
      by_cases hpq : p = q
      · subst hpq
        simp [hq, hra]
      · simp [List.mem_cons, hpq]
    | queue fi =>
      rw [hra] at h
      cases hrest : buildFilesToSend b64encode b64decode decompress rsyncdelta
          localFs remote rest with
      | none => rw [hrest] at h; exact absurd h (by simp)
      | some tl =>
        rw [hrest] at h
        have hfts : fts = (q, fi) :: tl := by simpa using h.symm
        subst hfts
        by_cases hpq : p = q
        · subst hpq
          rw [List.lookup_cons, beq_self_eq_true]
          simp [hra]
        · rw [List.lookup_cons, beq_false_of_ne hpq]
          rw [ih hnd' tl hrest p]
          simp [List.mem_cons, hpq]

/-- C1 as amended: for every pair of directory manifests,
handle_directory_state queues, over the union of the key sets: for a
path on both sides with the local file newer, a delta of the local file
generated against the remote's supplied signature with is_full_file
false when the parsed signature is nonempty, and the full file bytes as
a single-item delta with is_full_file true when the parsed signature is
empty (as for an empty remote file); for local mtime not newer, nothing;
for a path present locally only, the full file bytes as a single-item
delta with is_full_file true; for a path present remotely only (or
absent), nothing. A DELTA_TRANSFER is sent iff at least one entry was
queued, and is_synchronized is set to true in every case where the
handler completes. -/
theorem handle_directory_state_spec
    (b64encode b64decode : List Byte → List Byte)
    (decompress : List Byte → Option (List Byte))
    (rsyncdelta : List (Nat × List Byte) → List Byte → List DeltaItem)
    (localFs : List (String × LocalFile)) (remote : List (String × RemoteFile))
    (fts : List (String × FileInfo)) (sent sync : Bool)
    (h : handle_directory_state b64encode b64decode decompress rsyncdelta localFs remote
          = some (fts, sent, sync)) :
    sync = true ∧
    (sent = true ↔ fts ≠ []) ∧
    (∀ p lf rf, localFs.lookup p = some lf → remote.lookup p = some rf →
      (rf.mtime < lf.mtime →
        ∃ s, parse_signature decompress (b64decode rf.signature) = some s ∧
          fts.lookup p
            = some (prepare_file_for_transfer b64encode rsyncdelta lf (some s)) ∧
          (s ≠ [] →
            (prepare_file_for_transfer b64encode rsyncdelta lf (some s)).is_full_file
              = false ∧
            (prepare_file_for_transfer b64encode rsyncdelta lf (some s)).delta
              = (rsyncdelta s lf.content).map (serializeItem b64encode)) ∧
          (s = [] →
            (prepare_file_for_transfer b64encode rsyncdelta lf (some s)).is_full_file
              = true ∧
            (prepare_file_for_transfer b64encode rsyncdelta lf (some s)).delta
              = [PyVal.str (b64encode lf.content)])) ∧
      (lf.mtime ≤ rf.mtime → fts.lookup p = none)) ∧
    (∀ p lf, localFs.lookup p = some lf → remote.lookup p = none →
      fts.lookup p = some (prepare_file_for_transfer b64encode rsyncdelta lf none) ∧
      (prepare_file_for_transfer b64encode rsyncdelta lf none).is_full_file = true ∧
      (prepare_file_for_transfer b64encode rsyncdelta lf none).delta
        = [PyVal.str (b64encode lf.content)]) ∧
    (∀ p, localFs.lookup p = none → fts.lookup p = none) := by
  simp only [handle_directory_state] at h
  cases hbuild : buildFilesToSend b64encode b64decode decompress rsyncdelta localFs remote
      ((localFs.map Prod.fst ++ remote.map Prod.fst).dedup) with
  | none => rw [hbuild] at h; exact absurd h (by simp)
  | some f2 =>
    rw [hbuild] at h
    have hinj := (Option.some.injEq _ _).mp h
    have hfts : fts = f2 := (congrArg Prod.fst hinj).symm
    have hsent : sent = !f2.isEmpty := (congrArg (fun x => x.2.1) hinj).symm
    have hsync : sync = true := (congrArg (fun x => x.2.2) hinj).symm
    subst hfts
    have hnd := List.nodup_dedup (localFs.map Prod.fst ++ remote.map Prod.fst)
    have hlk := buildFilesToSend_lookup b64encode b64decode decompress rsyncdelta
      localFs remote _ hnd fts hbuild
    have hnf := buildFilesToSend_no_fail b64encode b64decode decompress rsyncdelta
      localFs remote _ fts hbuild
    refine ⟨hsync, ?_, ?_, ?_, ?_⟩
    · rw [hsent]
      cases fts with
      | nil => simp
      | cons e tl => simp
    · intro p lf rf hl hr
      have hmem : p ∈ (localFs.map Prod.fst ++ remote.map Prod.fst).dedup :=
        List.mem_dedup.mpr (List.mem_append.mpr (Or.inl (lookup_some_mem_keys _ _ _ hl)))
      constructor
      · intro hmt
        cases hparse : parse_signature decompress (b64decode rf.signature) with
        | none =>
          have : reconcilePath b64encode b64decode decompress rsyncdelta localFs remote p
              = PathAction.fail := by
            simp [reconcilePath, hl, hr, hmt, hparse]
          exact absurd this (hnf p hmem)
        | some s =>
          refine ⟨s, rfl, ?_, ?_, ?_⟩
          · rw [hlk p, if_pos hmem]
            simp [reconcilePath, hl, hr, hmt, hparse]
          · intro hsne
            constructor <;>
              simp [prepare_file_for_transfer, hsne, serialize_delta_data_items,
                Except.toOption, Option.getD]
          · intro hse
            subst hse
            constructor <;>
              simp [prepare_file_for_transfer, serialize_delta_data_items,
                DeltaItem.toPyVal, serialize_delta_data, serializeItem,
                Except.toOption, Except.map, Option.getD]
      · intro hle
        rw [hlk p, if_pos hmem]
        have hnlt : ¬ rf.mtime < lf.mtime := not_lt.mpr hle
        simp [reconcilePath, hl, hr, hnlt]
    · intro p lf hl hr
      have hmem : p ∈ (localFs.map Prod.fst ++ remote.map Prod.fst).dedup :=
        List.mem_dedup.mpr (List.mem_append.mpr (Or.inl (lookup_some_mem_keys _ _ _ hl)))
      refine ⟨?_, rfl, ?_⟩
      · rw [hlk p, if_pos hmem]
        simp [reconcilePath, hl, hr]
      · simp [prepare_file_for_transfer, serialize_delta_data_items, DeltaItem.toPyVal,
          serialize_delta_data, serializeItem, Except.toOption, Except.map, Option.getD]
    · intro p hl
      rw [hlk p]
      by_cases hmem : p ∈ (localFs.map Prod.fst ++ remote.map Prod.fst).dedup
      · rw [if_pos hmem]
        simp [reconcilePath, hl]
      · rw [if_neg hmem]

/-- Witness for C1: a two-file local directory against a one-file remote
manifest whose signature parses to one record; the locally newer file is
queued as a delta against the remote signature and the local-only file
is queued as a full-file entry. -/
theorem handle_directory_state_spec_witness :
    [("b", FileInfo.mk [PyVal.str [2]] 7 "CREATE" true),
     ("a", FileInfo.mk [PyVal.int 0] 5 "CREATE" false)].lookup "b"
      = some (prepare_file_for_transfer (fun b => b)
          (fun _ _ => [DeltaItem.blockRef 0]) (LocalFile.mk [2] 7) none) ∧
    (prepare_file_for_transfer (fun b => b)
        (fun _ _ => [DeltaItem.blockRef 0]) (LocalFile.mk [2] 7) none).is_full_file
      = true ∧
    (prepare_file_for_transfer (fun b => b)
        (fun _ _ => [DeltaItem.blockRef 0]) (LocalFile.mk [2] 7) none).delta
      = [PyVal.str [2]] :=
  (handle_directory_state_spec (fun b => b) (fun b => b) (fun b => some b)
    (fun _ _ => [DeltaItem.blockRef 0])
    [("a", LocalFile.mk [1] 5), ("b", LocalFile.mk [2] 7)]
    [("a", RemoteFile.mk 3 1
      [5, 0, 0, 0, 0, 0, 0, 0, 1, 2, 3, 4, 5, 6, 7, 8, 9, 10, 11, 12, 13, 14, 15, 16])]
    [("b", FileInfo.mk [PyVal.str [2]] 7 "CREATE" true),
     ("a", FileInfo.mk [PyVal.int 0] 5 "CREATE" false)]
    true true (by decide)).2.2.2.1 "b" (LocalFile.mk [2] 7) (by decide) (by decide)

/-- C1 counterexample to the original claim: a remote signature that
parses to the empty list (as save_signature produces for an empty remote
file) makes the locally newer file be queued as the full file bytes with
is_full_file true, where the claim asserts a delta with is_full_file
false; the source branches on the truthiness of the parsed signature. -/
theorem handle_directory_state_empty_signature_full_file :
    ((3 : Int) < 5) ∧
    parse_signature (fun b => some b) [] = some [] ∧
    handle_directory_state (fun b => b) (fun b => b) (fun b => some b)
        (fun _ _ => [DeltaItem.blockRef 0])
        [("a", LocalFile.mk [1] 5)] [("a", RemoteFile.mk 3 1 [])]
      = some ([("a", FileInfo.mk [PyVal.str [1]] 5 "CREATE" true)], true, true) := by
  refine ⟨by decide, by decide, by decide⟩

/-- Concatenation of the chunks of a deserialized delta, as performed by
joining on an empty bytes object; Python's join raises TypeError when an
element is not bytes. -/
def joinBytes : List PyVal → Option (List Byte)
  | [] => some []
  | PyVal.bytes b :: rest =>
    match joinBytes rest with
    | some l => some (b ++ l)
    | none => none
  | _ :: _ => none

/-- The state a Node message handler touches: the monitored files
(content by path), the signature store (parsed signatures by relative
path), and the shared echo-guard table (insertion timestamps by path).
All three tables are keyed by the file's path relative to the monitored
root; the absolute path the source uses for the file system and the
echo guard is an injective function of it for a fixed
monitored_directory, so the keys coincide. File mtimes play no role in
these handlers beyond being written, and are not tracked. -/
structure NodeState where
  fs : String → Option (List Byte)
  sigs : String → Option (List (Nat × List Byte))
  ignore_events : String → Option Nat

/-- The shared successful tail of the apply handlers: write the given
content to the path (or leave it there after a successful apply_delta),
set its mtime, then recompute and save its signature. -/
def applyWrite (computeSig : List Byte → List (Nat × List Byte))
    (st : NodeState) (p : String) (content : List Byte) : NodeState :=
  { st with
    fs := upd st.fs p (some content),
    sigs := upd st.sigs p (some (computeSig content)) }

/-- Node.handle_delta_transfer for one payload entry: deserialize the
delta (a failure here raises out of the whole handler, before the
echo-guard insert: Except.error), insert the echo-guard entry, then
inside the per-entry try block: an empty delta truncates the file to
empty, a full-file delta writes the joined chunks (a TypeError from the
join leaves the file truncated), and otherwise a truthy stored
signature is required -- a missing or empty stored signature means warn
and continue, a non-empty one means apply_delta runs against the
existing base file. `patch` is the net effect of
FileSync.apply_delta on the base content, none when it raises (the base
file is then untouched, see apply_delta_atomicity); `computeSig` is the
external pyrsync2 blockchecksums. -/
def handle_delta_transfer_entry (b64decode : List Byte → List Byte)
    (patch : List Byte → List PyVal → Option (List Byte))
    (computeSig : List Byte → List (Nat × List Byte))
    (now : Nat) (st : NodeState) (p : String) (info : FileInfo) :
    Except NodeState NodeState :=
  match deserialize_delta_data b64decode info.delta with
  | Except.error _ => Except.error st
  | Except.ok delta_data =>
    let st1 : NodeState := { st with ignore_events := upd st.ignore_events p (some now) }
    Except.ok (
      if delta_data.isEmpty then applyWrite computeSig st1 p []
      else if info.is_full_file then
        match joinBytes delta_data with
        | some content => applyWrite computeSig st1 p content
        | none => { st1 with fs := upd st1.fs p (some []) }
      else
        match st1.sigs p with
        | none => st1
        | some old_signature =>
          if old_signature = [] then st1
          else
            match st1.fs p with
            | none => st1
            | some base =>
              match patch base delta_data with
              | none => st1
              | some out => applyWrite computeSig st1 p out)

/-- Node.handle_delta_transfer: process the payload entries in order; an
error carries the state at the point the exception escaped. -/
def handle_delta_transfer (b64decode : List Byte → List Byte)
    (patch : List Byte → List PyVal → Option (List Byte))
    (computeSig : List Byte → List (Nat × List Byte)) (now : Nat) :
    NodeState → List (String × FileInfo) → Except NodeState NodeState
  | st, [] => Except.ok st
  | st, (p, info) :: rest =>
    match handle_delta_transfer_entry b64decode patch computeSig now st p info with
    | Except.error s => Except.error s
    | Except.ok st' => handle_delta_transfer b64decode patch computeSig now st' rest

/-- A MODIFICATION_UPDATE payload; keys read with payload.get are
Option-valued (None when absent). -/
structure ModPayload where
  file_path : String
  mtime : Int
  action : String
  is_full_file : Option Bool
  delta : Option (List PyVal)
  dest_path : Option String
deriving DecidableEq

/-- Node.handle_modification_update: insert the echo-guard entry, then
dispatch on the action. For MODIFY/CREATE the delta is deserialized (a
missing delta or a malformed element raises: Except.error, with the echo
entry already inserted); inside the try block an empty delta truncates
the file, a full-file delta writes the joined chunks, and otherwise the
delta is applied to the base file when it exists -- the handler returns
with a warning when the base file is missing, and does not consult the
signature store. DELETE removes the file and its signature; RENAME
moves the file and its signature to dest_path. -/
def handle_modification_update (b64decode : List Byte → List Byte)
    (patch : List Byte → List PyVal → Option (List Byte))
    (computeSig : List Byte → List (Nat × List Byte))
    (now : Nat) (st : NodeState) (payload : ModPayload) :
    Except NodeState NodeState :=
  let p := payload.file_path
  let st1 : NodeState := { st with ignore_events := upd st.ignore_events p (some now) }
  if payload.action = "MODIFY" ∨ payload.action = "CREATE" then
    match payload.delta with
    | none => Except.error st1
    | some ser =>
      match deserialize_delta_data b64decode ser with
      | Except.error _ => Except.error st1
      | Except.ok delta_data =>
        Except.ok (
          if delta_data.isEmpty then applyWrite computeSig st1 p []
          else if payload.is_full_file.getD false then
            match joinBytes delta_data with
            | some content => applyWrite computeSig st1 p content
            | none => { st1 with fs := upd st1.fs p (some []) }
          else
            match st1.fs p with
            | none => st1
            | some base =>
              match patch base delta_data with
              | none => st1
              | some out => applyWrite computeSig st1 p out)
  else if payload.action = "DELETE" then
    Except.ok { st1 with fs := upd st1.fs p none, sigs := upd st1.sigs p none }
  else if payload.action = "RENAME" then
    match payload.dest_path with
    | none => Except.error st1
    | some d =>
      let st2 : NodeState :=
        match st1.fs p with
        | some c => { st1 with fs := upd (upd st1.fs p none) d (some c) }
        | none => st1
      Except.ok (
        match st2.sigs p with
        | some s => { st2 with sigs := upd (upd st2.sigs p none) d (some s) }
        | none => st2)
  else Except.ok st1

/-- The state the ChangeHandler watcher touches: the modify-debounce
timestamp, the shared echo-guard table, the local files (with the mtime
os.stat reports), and the signature store. -/
structure WatcherState where
  last_trigger_time : Nat
  ignore_events : String → Option Nat
  fs : String → Option LocalFile
  sigs : String → Option (List (Nat × List Byte))

/-- ChangeHandler.handle_modify_create: stat the file (an exception, for
example a vanished file, is logged and swallowed: no broadcast), load
the old signature, compute the new one, generate a delta against the old
signature when it is truthy (present and non-empty) or package the full
file otherwise, save the new signature, and broadcast the payload. -/
def handle_modify_create (b64encode : List Byte → List Byte)
    (rsyncdelta : List (Nat × List Byte) → List Byte → List DeltaItem)
    (computeSig : List Byte → List (Nat × List Byte))
    (st : WatcherState) (p : String) (action : String) :
    WatcherState × Option ModPayload :=
  match st.fs p with
  | none => (st, none)
  | some lf =>
    let d : List DeltaItem × Bool :=
      match st.sigs p with
      | some old_signature =>
        if old_signature = [] then ([DeltaItem.literal lf.content], true)
        else (rsyncdelta old_signature lf.content, false)
      | none => ([DeltaItem.literal lf.content], true)
    let st' : WatcherState :=
      { st with sigs := upd st.sigs p (some (computeSig lf.content)) }
    (st', some {
      file_path := p,
      mtime := lf.mtime,
      action := action,
      is_full_file := some d.2,
      delta := some ((serialize_delta_data b64encode
        (d.1.map DeltaItem.toPyVal)).toOption.getD []),
      dest_path := none })

/-- ChangeHandler.on_modified: consult should_ignore, then require the
source path to contain no tilde and the 100 ms debounce to have elapsed
before building and broadcasting a MODIFY update. -/
def on_modified (b64encode : List Byte → List Byte)
    (rsyncdelta : List (Nat × List Byte) → List Byte → List DeltaItem)
    (computeSig : List Byte → List (Nat × List Byte))
    (now : Nat) (isDir : Bool) (p : String) (st : WatcherState) :
    WatcherState × Option ModPayload :=
  let ig := should_ignore now isDir p st.ignore_events
  let st1 : WatcherState := { st with ignore_events := ig.2 }
  if ig.1 then (st1, none)
  else if p.toList.contains '~' = false ∧ 100000000 < now - st1.last_trigger_time then
    handle_modify_create b64encode rsyncdelta computeSig
      { st1 with last_trigger_time := now } p "MODIFY"
  else (st1, none)

/-- ChangeHandler.on_created: consult should_ignore, then build and
broadcast a CREATE update; no tilde filter and no debounce. -/
def on_created (b64encode : List Byte → List Byte)
    (rsyncdelta : List (Nat × List Byte) → List Byte → List DeltaItem)
    (computeSig : List Byte → List (Nat × List Byte))
    (now : Nat) (isDir : Bool) (p : String) (st : WatcherState) :
    WatcherState × Option ModPayload :=
  let ig := should_ignore now isDir p st.ignore_events
  let st1 : WatcherState := { st with ignore_events := ig.2 }
  if ig.1 then (st1, none)
  else handle_modify_create b64encode rsyncdelta computeSig st1 p "CREATE"

/-- ChangeHandler.on_deleted: consult should_ignore, remove the stored
signature, and broadcast a DELETE payload with the current wall-clock
time as mtime; no tilde filter. -/
def on_deleted (now : Nat) (mtimeNow : Int) (isDir : Bool) (p : String)
    (st : WatcherState) : WatcherState × Option ModPayload :=
  let ig := should_ignore now isDir p st.ignore_events
  let st1 : WatcherState := { st with ignore_events := ig.2 }
  if ig.1 then (st1, none)
  else
    ({ st1 with sigs := upd st1.sigs p none },
     some { file_path := p, mtime := mtimeNow, action := "DELETE",
            is_full_file := none, delta := none, dest_path := none })

/-- ChangeHandler.on_moved: consult should_ignore, move the signature
file when it exists, and broadcast a RENAME payload; no tilde filter. -/
def on_moved (now : Nat) (mtimeNow : Int) (isDir : Bool) (src dest : String)
    (st : WatcherState) : WatcherState × Option ModPayload :=
  let ig := should_ignore now isDir src st.ignore_events
  let st1 : WatcherState := { st with ignore_events := ig.2 }
  if ig.1 then (st1, none)
  else
    let st2 : WatcherState :=
      match st1.sigs src with
      | some s => { st1 with sigs := upd (upd st1.sigs src none) dest (some s) }
      | none => st1
    (st2, some { file_path := src, mtime := mtimeNow, action := "RENAME",
                 is_full_file := none, delta := none, dest_path := some dest })

/-- C8 counterexample: handle_modification_update applies a delta with
is_full_file false without requiring a stored signature: for a path with
no stored signature but an existing base file, the file is patched (here
to content 9) instead of being skipped unmodified. -/
theorem modification_update_ignores_missing_signature :
    (NodeState.mk (fun q => if q = "f" then some [1] else none)
        (fun _ => none) (fun _ => none)).sigs "f" = none ∧
    ((handle_modification_update (fun b => b) (fun _ _ => some [9]) (fun _ => []) 0
        (NodeState.mk (fun q => if q = "f" then some [1] else none)
          (fun _ => none) (fun _ => none))
        (ModPayload.mk "f" 0 "MODIFY" (some false) (some [PyVal.int 0])
          none)).toOption.map (fun s => s.fs "f"))
      = some (some [9]) := by
  exact ⟨rfl, by decide⟩

/-- C8 amended: a DELTA_TRANSFER entry with is_full_file false and a
nonempty delta requires a truthy stored signature -- a missing or empty
stored signature means warn and skip with the file system and signature
store untouched, a non-empty one (with the base file present) means
apply_delta runs against the base file. A CREATE/MODIFY
MODIFICATION_UPDATE with is_full_file false instead requires the base
file to exist: missing means warn and skip, present means apply_delta
runs without consulting the signature store. -/
theorem delta_apply_signature_check_amended
    (b64decode : List Byte → List Byte)
    (patch : List Byte → List PyVal → Option (List Byte))
    (computeSig : List Byte → List (Nat × List Byte)) (now : Nat)
    (st : NodeState) (p : String) (info : FileInfo) (payload : ModPayload)
    (dd : List PyVal)
    (hff : info.is_full_file = false)
    (hdes : deserialize_delta_data b64decode info.delta = Except.ok dd)
    (hnonempty : dd ≠ []) :
    (st.sigs p = none ∨ st.sigs p = some [] →
      handle_delta_transfer_entry b64decode patch computeSig now st p info
        = Except.ok { st with ignore_events := upd st.ignore_events p (some now) }) ∧
    (∀ s base, st.sigs p = some s → s ≠ [] → st.fs p = some base →
      handle_delta_transfer_entry b64decode patch computeSig now st p info
        = Except.ok (
            match patch base dd with
            | none => { st with ignore_events := upd st.ignore_events p (some now) }
            | some out => applyWrite computeSig
                { st with ignore_events := upd st.ignore_events p (some now) } p out)) ∧
    (payload.action = "MODIFY" ∨ payload.action = "CREATE" →
      payload.is_full_file = some false →
      payload.delta = some info.delta →
      ((st.fs payload.file_path = none →
        handle_modification_update b64decode patch computeSig now st payload
          = Except.ok { st with
              ignore_events := upd st.ignore_events payload.file_path (some now) }) ∧
      (∀ base, st.fs payload.file_path = some base →
        handle_modification_update b64decode patch computeSig now st payload
          = Except.ok (
              match patch base dd with
              | none => { st with
                  ignore_events := upd st.ignore_events payload.file_path (some now) }
              | some out => applyWrite computeSig
                  { st with
                    ignore_events := upd st.ignore_events payload.file_path (some now) }
                  payload.file_path out)))) := by
  have hde : dd.isEmpty = false := by
    cases dd with
    | nil => exact absurd rfl hnonempty
    | cons a l => rfl
  refine ⟨?_, ?_, ?_⟩
  · intro hsig
    rcases hsig with hsig | hsig
    · simp [handle_delta_transfer_entry, hdes, hde, hff, hsig]
    · simp [handle_delta_transfer_entry, hdes, hde, hff, hsig]
  · intro s base hsig hsne hbase
    simp [handle_delta_transfer_entry, hdes, hde, hff, hsig, hsne, hbase]
  · intro hact hisf hdelta
    constructor
    · intro hbase
      simp only [handle_modification_update]
      rw [if_pos hact]
      simp [hisf, hdelta, hdes, hde, hbase]
    · intro base hbase
      simp only [handle_modification_update]
      rw [if_pos hact]
      simp [hisf, hdelta, hdes, hde, hbase]

/-- Witness for the amended C8 at concrete inputs: a DELTA_TRANSFER
entry with a missing signature is skipped with only the echo-guard entry
added. -/
theorem delta_apply_signature_check_amended_witness :
    handle_delta_transfer_entry (fun b => b) (fun _ _ => some [9]) (fun _ => []) 4
        (NodeState.mk (fun q => if q = "g" then some [1] else none)
          (fun _ => none) (fun _ => none))
        "g" (FileInfo.mk [PyVal.int 0] 0 "CREATE" false)
      = Except.ok { NodeState.mk (fun q => if q = "g" then some [1] else none)
            (fun _ => none) (fun _ => none) with
          ignore_events := upd (fun _ => none) "g" (some 4) } :=
  (delta_apply_signature_check_amended (fun b => b) (fun _ _ => some [9])
    (fun _ => []) 4
    (NodeState.mk (fun q => if q = "g" then some [1] else none)
      (fun _ => none) (fun _ => none))
    "g" (FileInfo.mk [PyVal.int 0] 0 "CREATE" false)
    (ModPayload.mk "g" 0 "MODIFY" (some false) (some [PyVal.int 0]) none)
    [PyVal.int 0] rfl rfl (by decide)).1 (Or.inl rfl)

/-- C10: when handle_delta_transfer skips a path because is_full_file is
false and no local signature exists, the monitored files and the stored
signatures are left unchanged, but the echo-guard entry inserted before
the check is kept, so watcher events on that path are suppressed for the
next 500 ms even though nothing was written. -/
theorem delta_transfer_skip_keeps_echo_guard
    (b64decode : List Byte → List Byte)
    (patch : List Byte → List PyVal → Option (List Byte))
    (computeSig : List Byte → List (Nat × List Byte)) (now : Nat)
    (st : NodeState) (p : String) (info : FileInfo) (dd : List PyVal)
    (hff : info.is_full_file = false)
    (hdes : deserialize_delta_data b64decode info.delta = Except.ok dd)
    (hnonempty : dd ≠ [])
    (hsig : st.sigs p = none) :
    ∃ st', handle_delta_transfer b64decode patch computeSig now st [(p, info)]
        = Except.ok st' ∧
      st'.fs = st.fs ∧ st'.sigs = st.sigs ∧
      st'.ignore_events p = some now ∧
      (∀ t, t < now + 500000000 →
        (should_ignore t false p st'.ignore_events).1 = true) := by
  have hde : dd.isEmpty = false := by
    cases dd with
    | nil => exact absurd rfl hnonempty
    | cons a l => rfl
  refine ⟨{ st with ignore_events := upd st.ignore_events p (some now) },
    ?_, rfl, rfl, upd_same _ _ _, ?_⟩
  · simp [handle_delta_transfer, handle_delta_transfer_entry, hdes, hde, hff, hsig]
  · intro t ht
    simp [should_ignore, upd_same, ht]

/-- Witness for C10 at concrete inputs. -/
theorem delta_transfer_skip_keeps_echo_guard_witness :
    ∃ st', handle_delta_transfer (fun b => b) (fun _ _ => some [9]) (fun _ => []) 4
        (NodeState.mk (fun q => if q = "g" then some [1] else none)
          (fun _ => none) (fun _ => none))
        [("g", FileInfo.mk [PyVal.int 0] 0 "CREATE" false)]
        = Except.ok st' ∧
      st'.fs = (NodeState.mk (fun q => if q = "g" then some [1] else none)
          (fun _ => none) (fun _ => none)).fs ∧
      st'.sigs = (NodeState.mk (fun q => if q = "g" then some [1] else none)
          (fun _ => none) (fun _ => none)).sigs ∧
      st'.ignore_events "g" = some 4 ∧
      (∀ t, t < 4 + 500000000 →
        (should_ignore t false "g" st'.ignore_events).1 = true) :=
  delta_transfer_skip_keeps_echo_guard (fun b => b) (fun _ _ => some [9])
    (fun _ => []) 4
    (NodeState.mk (fun q => if q = "g" then some [1] else none)
      (fun _ => none) (fun _ => none))
    "g" (FileInfo.mk [PyVal.int 0] 0 "CREATE" false)
    [PyVal.int 0] rfl rfl (by decide) rfl

/-- C9 counterexample: a CREATE event on a path containing a tilde is
not ignored: the watcher saves a signature for it and broadcasts a
MODIFICATION_UPDATE. -/
theorem on_created_processes_tilde_path :
    "a~".toList.contains '~' = true ∧
    ((on_created (fun b => b) (fun _ _ => [DeltaItem.blockRef 0]) (fun _ => [])
        7 false "a~"
        (WatcherState.mk 0 (fun _ => none)
          (fun q => if q = "a~" then some (LocalFile.mk [1] 3) else none)
          (fun _ => none))).2).isSome = true ∧
    ((on_created (fun b => b) (fun _ _ => [DeltaItem.blockRef 0]) (fun _ => [])
        7 false "a~"
        (WatcherState.mk 0 (fun _ => none)
          (fun q => if q = "a~" then some (LocalFile.mk [1] 3) else none)
          (fun _ => none))).1.sigs "a~").isSome = true := by
  refine ⟨by decide, by decide, by decide⟩

/-- C9 amended: only MODIFY events filter paths containing a tilde:
on_modified never broadcasts for such a path and leaves the files and
the signature store untouched, while on_created behaves exactly as
handle_modify_create and on_deleted and on_moved broadcast, whenever the
event is not suppressed by the echo guard or the directory check. -/
theorem tilde_filter_amended (b64encode : List Byte → List Byte)
    (rsyncdelta : List (Nat × List Byte) → List Byte → List DeltaItem)
    (computeSig : List Byte → List (Nat × List Byte))
    (now : Nat) (mtimeNow : Int) (isDir : Bool) (p dest : String)
    (st : WatcherState) (htilde : p.toList.contains '~' = true) :
    ((on_modified b64encode rsyncdelta computeSig now isDir p st).2 = none ∧
     (on_modified b64encode rsyncdelta computeSig now isDir p st).1.sigs = st.sigs ∧
     (on_modified b64encode rsyncdelta computeSig now isDir p st).1.fs = st.fs) ∧
    ((should_ignore now isDir p st.ignore_events).1 = false →
      (on_created b64encode rsyncdelta computeSig now isDir p st)
        = handle_modify_create b64encode rsyncdelta computeSig
            { st with ignore_events := (should_ignore now isDir p st.ignore_events).2 }
            p "CREATE" ∧
      (on_deleted now mtimeNow isDir p st).2 ≠ none ∧
      (on_moved now mtimeNow isDir p dest st).2 ≠ none) := by
  have hmem : '~' ∈ p.data := by simpa using htilde
  constructor
  · cases hig : (should_ignore now isDir p st.ignore_events).1 with
    | true => refine ⟨?_, ?_, ?_⟩ <;> simp [on_modified, hig]
    | false => refine ⟨?_, ?_, ?_⟩ <;> simp [on_modified, hig, hmem]
  · intro hig
    refine ⟨?_, ?_, ?_⟩
    · simp [on_created, hig]
    · cases hsig : st.sigs p <;> simp [on_deleted, hig]
    · cases hsig : st.sigs p <;> simp [on_moved, hig, hsig]

/-- Witness for the amended C9: for a concrete tilde path, a MODIFY
event is filtered while DELETE and RENAME events broadcast. -/
theorem tilde_filter_amended_witness :
    (on_modified (fun b => b) (fun _ _ => [DeltaItem.blockRef 0]) (fun _ => [])
        7 false "b~"
        (WatcherState.mk 0 (fun _ => none)
          (fun q => if q = "b~" then some (LocalFile.mk [1] 3) else none)
          (fun _ => none))).2 = none ∧
    (on_deleted 7 3 false "b~"
        (WatcherState.mk 0 (fun _ => none)
          (fun q => if q = "b~" then some (LocalFile.mk [1] 3) else none)
          (fun _ => none))).2 ≠ none :=
  ⟨((tilde_filter_amended (fun b => b) (fun _ _ => [DeltaItem.blockRef 0])
      (fun _ => []) 7 3 false "b~" "c"
      (WatcherState.mk 0 (fun _ => none)
        (fun q => if q = "b~" then some (LocalFile.mk [1] 3) else none)
        (fun _ => none)) (by decide)).1).1,
   ((tilde_filter_amended (fun b => b) (fun _ _ => [DeltaItem.blockRef 0])
      (fun _ => []) 7 3 false "b~" "c"
      (WatcherState.mk 0 (fun _ => none)
        (fun q => if q = "b~" then some (LocalFile.mk [1] 3) else none)
        (fun _ => none)) (by decide)).2 (by decide)).2.1⟩

end DirSync
